import Mathlib

/-!
Verification development for the fuxi-quant repository.

Shallow embedding notes:
* `rust_decimal::Decimal` is modelled as exact rationals (`Rat`).  All the
  operations the claims touch (+, -, *, /, max, comparisons) agree with the
  fixed-point semantics on the magnitudes involved; overflow and the 28-digit
  rounding of division are outside the scope of the claims.
* `indexmap::IndexMap<String, V>` is modelled as an insertion-ordered
  association list `List (String × V)`.
* `chrono` timestamps are modelled as `Int` minutes (the backtest truncates
  every time to the minute before use).
* Rust `unwrap()` calls on map lookups are modelled with `getD` defaults; in
  every reachable engine state the keys are present (`symbols`, `positions`
  and `bars` are built from the same `codes` list), and the theorems carry
  the corresponding lookup hypotheses explicitly.
-/

namespace Fuxi

/-- Model of `rust_decimal::Decimal` (exact rational arithmetic). -/
abbrev Dec := Rat

/-- Model of `IndexMap<String, α>`: insertion-ordered association list. -/
abbrev SMap (α : Type) := List (String × α)

/-- First-match lookup, as `IndexMap::get`. -/
def mget {α : Type} (m : SMap α) (k : String) : Option α :=
  match m with
  | [] => none
  | (k', v) :: rest => if k' = k then some v else mget rest k

/-- Model of `IndexMap::insert`: an existing key keeps its slot, a new key is appended. -/
def minsert {α : Type} (m : SMap α) (k : String) (v : α) : SMap α :=
  match m with
  | [] => [(k, v)]
  | (k', v') :: rest => if k' = k then (k, v) :: rest else (k', v') :: minsert rest k v

/-- Model of `IndexMap::values`. -/
def mvalues {α : Type} (m : SMap α) : List α := m.map Prod.snd

/-- Model of `src/fuxi-quant-core/src/types.rs`: `OrderType`. -/
inductive OrderType where
  | Limit
  | Market
deriving Repr, DecidableEq

/-- Model of `src/fuxi-quant-core/src/types.rs`: `Direction`. -/
inductive Direction where
  | Long
  | Short
deriving Repr, DecidableEq

/-- Model of `src/fuxi-quant-core/src/types.rs`: `Side`. -/
inductive Side where
  | Buy
  | Sell
deriving Repr, DecidableEq

/-- Model of `src/fuxi-quant-core/src/types.rs`: `OrderStatus`. -/
inductive OrderStatus where
  | New
  | Pending
  | Filled
  | Canceling
  | Canceled
  | Rejected
deriving Repr, DecidableEq

/-- Model of `src/fuxi-quant-core/src/types.rs`: `Symbol`. -/
structure Symbol where
  code : String
  priceTick : Dec
  sizeTick : Dec
  minSize : Dec
  minCash : Dec
  maxLever : Dec
  faceVal : Dec
  markPrice : Dec
  price : Dec
  fundingRate : Dec
deriving Repr, DecidableEq

/-- Model of `Symbol::new`: the default contract parameters. -/
def Symbol.new (code : String) : Symbol :=
  { code := code
    priceTick := 1 / 100000000
    sizeTick := 1 / 100000000
    minSize := 1 / 100000000
    minCash := 1 / 100000000
    maxLever := 10
    faceVal := 1
    markPrice := 0
    price := 0
    fundingRate := 0 }

/-- Model of `src/fuxi-quant-core/src/types.rs`: `DirectionPosition`. -/
structure DirectionPosition where
  price : Dec
  size : Dec
deriving Repr, DecidableEq

/-- Model of `src/fuxi-quant-core/src/types.rs`: `Position`. -/
structure Position where
  code : String
  lever : Dec
  long : DirectionPosition
  short : DirectionPosition
deriving Repr, DecidableEq

/-- Model of `Position::new`. -/
def Position.new (code : String) : Position :=
  { code := code, lever := 1, long := ⟨0, 0⟩, short := ⟨0, 0⟩ }

/-- Model of `src/fuxi-quant-core/src/types.rs`: `Order`. -/
structure Order where
  id : String
  code : String
  type_ : OrderType
  direction : Direction
  side : Side
  price : Option Dec
  size : Dec
  filled : Dec
  status : OrderStatus
  time : Int
deriving Repr, DecidableEq

/-- Model of `src/fuxi-quant-core/src/types.rs`: `Trade`. -/
structure Trade where
  id : String
  time : Int
  code : String
  direction : Direction
  side : Side
  price : Dec
  size : Dec
  fee : Dec
  rpl : Dec
deriving Repr, DecidableEq

/-- Model of `src/fuxi-quant-core/src/types.rs`: `Context` (the `bars` and `signals`
tables are not needed by any claim and are omitted). -/
structure Context where
  cash : Dec
  symbols : SMap Symbol
  positions : SMap Position
  orders : SMap Order
deriving Repr, DecidableEq

/-- The `matches!((direction, side), (Long, Buy) | (Short, Sell))` test used by
`place_order`, `cross_order` and `calc_order_frozen_cash`. -/
def isOpenPair (d : Direction) (s : Side) : Bool :=
  match d, s with
  | .Long, .Buy => true
  | .Short, .Sell => true
  | _, _ => false

/-- The `matches!((direction, side), (Long, Sell) | (Short, Buy))` test used by
`calc_pos_frozen_size`. -/
def isClosePair (d : Direction) (s : Side) : Bool :=
  match d, s with
  | .Long, .Sell => true
  | .Short, .Buy => true
  | _, _ => false

/-- The `matches!(status, New | Pending | Canceling)` test. -/
def isActiveStatus (s : OrderStatus) : Bool :=
  match s with
  | .New => true
  | .Pending => true
  | .Canceling => true
  | _ => false

/-- Lookup of a symbol, with the `unwrap()` modelled by the default. -/
def Context.symbolOf (ctx : Context) (code : String) : Symbol :=
  (mget ctx.symbols code).getD (Symbol.new code)

/-- Lookup of a position, with the `unwrap()` modelled by the default. -/
def Context.posOf (ctx : Context) (code : String) : Position :=
  (mget ctx.positions code).getD (Position.new code)

/-- Model of `Context::calc_order_frozen_cash`. -/
def Context.calcOrderFrozenCash (ctx : Context) : Dec :=
  (((mvalues ctx.orders).filter fun o =>
      isOpenPair o.direction o.side && isActiveStatus o.status
        && decide (o.filled < o.size)).map fun o =>
    let unfillSize := o.size - o.filled
    let pos := ctx.posOf o.code
    let price := if o.type_ = OrderType.Market
      then (ctx.symbolOf o.code).markPrice
      else o.price.getD 0
    (price * unfillSize) / pos.lever).sum

/-- Model of `Context::calc_pos_frozen_cash`. -/
def Context.calcPosFrozenCash (ctx : Context) : Dec :=
  (ctx.positions.map fun cp =>
    let symbol := ctx.symbolOf cp.1
    (symbol.markPrice * cp.2.long.size) / cp.2.lever
      + (symbol.markPrice * cp.2.short.size) / cp.2.lever).sum

/-- Model of `Context::calc_frozen_cash`. -/
def Context.calcFrozenCash (ctx : Context) : Dec :=
  ctx.calcOrderFrozenCash + ctx.calcPosFrozenCash

/-- Model of `Context::calc_upl`. -/
def Context.calcUpl (ctx : Context) : Dec :=
  (ctx.positions.map fun cp =>
    let symbol := ctx.symbolOf cp.1
    (symbol.markPrice - cp.2.long.price) * cp.2.long.size
      + (cp.2.short.price - symbol.markPrice) * cp.2.short.size).sum

/-- Model of `Context::calc_equity`. -/
def Context.calcEquity (ctx : Context) : Dec :=
  ctx.cash + ctx.calcUpl

/-- Model of `Context::calc_avail_cash`. -/
def Context.calcAvailCash (ctx : Context) : Dec :=
  max (ctx.calcEquity - ctx.calcFrozenCash) 0

/-- Model of `Context::calc_pos_frozen_size`. -/
def Context.calcPosFrozenSize (ctx : Context) (code : String) (direction : Direction) : Dec :=
  (((mvalues ctx.orders).filter fun o =>
      decide (o.code = code) && isClosePair o.direction o.side
        && decide (o.direction = direction) && isActiveStatus o.status).map fun o =>
    o.size - o.filled).sum

/-- Model of `Context::calc_pos_avail_size`. -/
def Context.calcPosAvailSize (ctx : Context) (code : String) (direction : Direction) : Dec :=
  let pos := ctx.posOf code
  let posSize := match direction with
    | .Long => pos.long.size
    | .Short => pos.short.size
  max (posSize - ctx.calcPosFrozenSize code direction) 0

/-- Model of `Context::new`: the accumulating loop over `codes` with the duplicate
check (`ensure!(!symbols.contains_key(code))`). -/
def buildMaps (codes : List String) (syms : SMap Symbol) (poss : SMap Position) :
    Option (SMap Symbol × SMap Position) :=
  match codes with
  | [] => some (syms, poss)
  | c :: rest =>
    if (mget syms c).isSome then none
    else buildMaps rest (syms ++ [(c, Symbol.new c)]) (poss ++ [(c, Position.new c)])

/-- Model of `Context::new`. -/
def Context.new (cash : Dec) (codes : List String) : Option Context :=
  (buildMaps codes [] []).map fun sp =>
    { cash := cash, symbols := sp.1, positions := sp.2, orders := [] }

/-- The `actual_price` computed by `Backtest::place_order`. -/
def actualOrderPrice (symbol : Symbol) (type_ : OrderType) (price : Option Dec) : Dec :=
  match type_ with
  | .Market => symbol.price
  | .Limit => price.getD 0

/-- The `Order` literal built by `Backtest::place_order` on success. -/
def newOrder (code : String) (type_ : OrderType) (direction : Direction) (side : Side)
    (size : Dec) (price : Option Dec) (orderId : String) (currTime : Int) : Order :=
  ⟨orderId, code, type_, direction, side, price, size, 0, OrderStatus.New, currTime⟩

/-- The checks of `Backtest::place_order` that follow the order-type/price
gate: price positivity, minimum size, minimum cash, and the opening
(available cash) or closing (available size) check, ending in the insertion
of the new order. -/
def placeOrderChecks (ctx : Context) (currTime : Int) (code : String) (type_ : OrderType)
    (direction : Direction) (side : Side) (size : Dec) (price : Option Dec)
    (orderId : String) (symbol : Symbol) : Except String (Context × String) :=
  let actualPrice := actualOrderPrice symbol type_ price
  if ¬ (0 < actualPrice) then .error "price must be positive"
  else if ¬ (symbol.minSize ≤ size) then .error "size below min size"
  else
    let cash := actualPrice * size
    if ¬ (symbol.minCash ≤ cash) then .error "cash below min cash"
    else if isOpenPair direction side then
      let pos := ctx.posOf code
      let requiredCash := cash / pos.lever
      let availCash := ctx.calcAvailCash
      if ¬ (requiredCash ≤ availCash) then .error "insufficient available cash"
      else
        let order : Order := newOrder code type_ direction side size price orderId currTime
        .ok ({ ctx with orders := minsert ctx.orders orderId order }, orderId)
    else
      let availSize := ctx.calcPosAvailSize code direction
      if ¬ (size ≤ availSize) then .error "insufficient position size"
      else
        let order : Order := newOrder code type_ direction side size price orderId currTime
        .ok ({ ctx with orders := minsert ctx.orders orderId order }, orderId)

/-- The `ensure!` gate of `place_order`: a market order must not carry a
price and a limit order must carry one. -/
def typePriceMismatch (type_ : OrderType) (price : Option Dec) : Bool :=
  match type_ with
  | .Market => price.isSome
  | .Limit => price.isNone

/-- Model of `Backtest::place_order` (the fresh id produced by `id_new()` is passed in
as `orderId`): symbol lookup, the `ensure!` that a market order has no price
and a limit order has one, then the remaining checks. -/
def placeOrder (ctx : Context) (currTime : Int) (code : String) (type_ : OrderType)
    (direction : Direction) (side : Side) (size : Dec) (price : Option Dec)
    (orderId : String) : Except String (Context × String) :=
  match mget ctx.symbols code with
  | none => .error ("symbol not found: " ++ code)
  | some symbol =>
    if typePriceMismatch type_ price then
      .error "order type and price mismatch"
    else
      placeOrderChecks ctx currTime code type_ direction side size price orderId symbol

/-- The `(can_fill, fill_price)` computation of `Backtest::cross_order`
against the current bar's `(open, high, low)`. -/
def crossFill (slippage openP highP lowP : Dec) (o : Order) : Bool × Dec :=
  match o.type_ with
  | .Market =>
    match o.side with
    | .Buy => (true, openP * (1 + slippage))
    | .Sell => (true, openP * (1 - slippage))
  | .Limit =>
    let limitPrice := o.price.getD 0
    match o.side with
    | .Buy =>
      if limitPrice ≥ openP then (true, openP)
      else if limitPrice ≥ lowP then (true, limitPrice)
      else (false, 0)
    | .Sell =>
      if limitPrice ≤ openP then (true, openP)
      else if limitPrice ≤ highP then (true, limitPrice)
      else (false, 0)

/-- The result of the fill branch of `Backtest::cross_order`. -/
structure FillEffect where
  cash : Dec
  pos : Position
  fee : Dec
  rpl : Dec
  trade : Trade
deriving Repr, DecidableEq

/-- The fill branch of `Backtest::cross_order` (`backtest.rs` lines 151-234):
fee computation, position-bucket update, cash update, trade record.  `o`
carries its status at the start of the tick (`orig_status`). -/
def applyFill (makerFeeRate takerFeeRate : Dec) (currTime : Int) (cash0 : Dec)
    (pos : Position) (orderId : String) (o : Order) (fillPrice : Dec) : FillEffect :=
  let origStatus := o.status
  let oldPos := match o.direction with
    | .Long => pos.long
    | .Short => pos.short
  let cash := fillPrice * o.size
  let feeRate := if origStatus = OrderStatus.Pending then makerFeeRate else takerFeeRate
  let feeCash := cash * feeRate
  let isOpen := isOpenPair o.direction o.side
  let rpl : Dec := if isOpen then 0
    else match o.direction with
      | .Long => (fillPrice - oldPos.price) * o.size - feeCash
      | .Short => (oldPos.price - fillPrice) * o.size - feeCash
  let newPosSize := if isOpen then oldPos.size + o.size else oldPos.size - o.size
  let newPosPrice := if isOpen then
      (if 0 < oldPos.size then
        (oldPos.price * oldPos.size + fillPrice * o.size) / newPosSize
      else fillPrice)
    else oldPos.price
  let newCash := if isOpen then cash0 - feeCash else cash0 + rpl
  let newBucket : DirectionPosition := ⟨newPosPrice, newPosSize⟩
  let newPos := match o.direction with
    | .Long => { pos with long := newBucket }
    | .Short => { pos with short := newBucket }
  let trade : Trade := ⟨orderId, currTime, o.code, o.direction, o.side, fillPrice,
    o.size, feeCash, rpl⟩
  ⟨newCash, newPos, feeCash, rpl, trade⟩

/-- The state assembled by `Backtest::new` (fields not referenced by any claim
are omitted). -/
structure BacktestState where
  context : Context
  historyBarLen : Nat
  barIdx : Nat
  startTime : Int
  endTime : Int
  currTime : Int
deriving Repr, DecidableEq

/-- Model of `bars::load` for one code, abstracted over the data directory: `data`
maps a code to the list of minutes for which a complete bar row exists
(a missing file is a code absent from `data`).  The load succeeds iff every
minute of the inclusive window `[start - H, end]` is present. -/
def barsLoadOk (data : SMap (List Int)) (code : String) (startTime endTime : Int)
    (historyBarLen : Nat) : Bool :=
  match mget data code with
  | none => false
  | some avail =>
    (List.range ((endTime - (startTime - historyBarLen) + 1).toNat)).all fun i =>
      decide ((startTime - (historyBarLen : Int) + i) ∈ avail)

/-- Model of `Backtest::new` (strategy handle, fee rates and data directory do not
participate in any checked condition and are dropped; times are already in
minutes, so the `duration_trunc` is the identity). -/
def Backtest.new (codes : List String) (startTime endTime : Int) (cash slippage : Dec)
    (historyBarLen : Nat) (data : SMap (List Int)) : Option BacktestState :=
  if endTime < startTime then none
  else if codes.isEmpty then none
  else if cash < 0 then none
  else if slippage < 0 then none
  else
    match Context.new cash codes with
    | none => none
    | some ctx =>
      if codes.all (fun c => barsLoadOk data c startTime endTime historyBarLen) then
        some { context := ctx, historyBarLen := historyBarLen, barIdx := historyBarLen,
               startTime := startTime, endTime := endTime, currTime := startTime }
      else none

/-- Result of one Rhai progress tick (`Runtime::new`'s `on_progress` hook):
either continue with the new counter value or terminate with a message. -/
inductive GasStep where
  | cont (usage : Nat)
  | abort (msg : String)
deriving Repr, DecidableEq

/-- The abort message built by the progress hook. -/
def gasMsg (gasMax : Nat) : String :=
  "gas usage exceeds the limit: " ++ toString gasMax

/-- Model of `src/fuxi-quant-runtime/src/runtime.rs` lines 145-158: the gas hook.
When `gas_max == 0` the hook returns immediately (no metering); otherwise it
aborts when the counter already exceeds `gas_max`, and increments it
otherwise. -/
def onProgress (gasMax usage : Nat) : GasStep :=
  if gasMax = 0 then .cont usage
  else if gasMax < usage then .abort (gasMsg gasMax)
  else .cont (usage + 1)

/-- Model of `n` consecutive progress ticks starting from counter `usage`. -/
def runTicks (gasMax : Nat) : Nat → Nat → GasStep
  | 0, usage => .cont usage
  | n + 1, usage =>
    match onProgress gasMax usage with
    | .cont u => runTicks gasMax n u
    | .abort m => .abort m

/-- KV cache model: a list of `(position, token)` entries. -/
abbrev KvCache := List (Nat × Nat)

/-- Model of `ctx.decode`: place `toks` at consecutive positions starting at `nCur`
(as the batched `batch.add(token, n_cur + i, …)` loops do). -/
def kvEncode (kv : KvCache) (nCur : Nat) (toks : List Nat) : KvCache × Nat :=
  (kv ++ (toks.enum.map fun ti => (nCur + ti.1, ti.2)), nCur + toks.length)

/-- Model of `clear_kv_cache_seq(Some 0, Some a, Some b)`: drop entries with position
in `[a, b)`. -/
def kvClear (kv : KvCache) (a b : Nat) : KvCache :=
  kv.filter fun e => ¬ (a ≤ e.1 ∧ e.1 < b)

/-- Model of `kv_cache_seq_add(0, Some from, None, delta)`: shift entries at positions
`≥ from` by `delta`. -/
def kvShift (kv : KvCache) (from_ : Nat) (delta : Int) : KvCache :=
  kv.map fun e => if from_ ≤ e.1 then (((e.1 : Int) + delta).toNat, e.2) else e

/-- One turn of `Agent::chat_internal` at the token level (`agent.rs` lines
489-607; `Agent::chat` is the same with the elision unconditional).  The
prompt tokens are decoded from `nCur0`; `think_start` is recorded; the
generated tokens (`thinkToks ++ postToks`, the split being where the text
scanner sees `</think>`) are decoded one by one; then, if thinking is
enabled and anything was generated, the range `[think_start, n_cur)` is
cleared, positions `≥ n_cur` are shifted down by the generated length and
`n_cur` is reset to `think_start`; finally the `<|im_end|>\n` tokens are
decoded.  Returns the KV cache and `n_cur`. -/
def chatTurn (enableThinking : Bool) (nCur0 : Nat) (kv0 : KvCache)
    (promptToks thinkToks postToks imEndToks : List Nat) : KvCache × Nat :=
  let step1 := kvEncode kv0 nCur0 promptToks
  let thinkStart := step1.2
  let step2 := kvEncode step1.1 thinkStart (thinkToks ++ postToks)
  let step3 :=
    if enableThinking ∧ thinkStart < step2.2 then
      let thinkLen := step2.2 - thinkStart
      (kvShift (kvClear step2.1 thinkStart step2.2) step2.2 (-(thinkLen : Int)), thinkStart)
    else step2
  kvEncode step3.1 step3.2 imEndToks

/-- The committed-cursor value asserted by the specification for a completed
chat turn: prompt prefix plus post-think output plus the trailing
`<|im_end|>\n`. -/
def specCursorAfterTurn (nCur0 : Nat) (promptToks postToks imEndToks : List Nat) : Nat :=
  nCur0 + promptToks.length + postToks.length + imEndToks.length

/-! ### Helper lemmas on association maps and `Context::new` -/

lemma mget_append {α : Type} (m1 m2 : SMap α) (k : String) :
    mget (m1 ++ m2) k = match mget m1 k with
      | some v => some v
      | none => mget m2 k := by
  induction m1 with
  | nil => simp [mget]
  | cons p rest ih =>
    by_cases h : p.1 = k
    · simp [mget, h]
    · simp [mget, h, ih]

lemma mget_singleton {α : Type} (k k' : String) (v : α) :
    mget [(k, v)] k' = if k = k' then some v else none := by
  simp [mget]

lemma buildMaps_some :
    ∀ (codes : List String) (syms : SMap Symbol) (poss : SMap Position),
      codes.Nodup → (∀ c ∈ codes, mget syms c = none) →
      buildMaps codes syms poss =
        some (syms ++ codes.map fun c => (c, Symbol.new c),
              poss ++ codes.map fun c => (c, Position.new c)) := by
  intro codes
  induction codes with
  | nil => intro syms poss _ _; simp [buildMaps]
  | cons c rest ih =>
    intro syms poss hnd hnone
    have hc : mget syms c = none := hnone c (by simp)
    have hnd' : rest.Nodup := (List.nodup_cons.mp hnd).2
    have hcnot : c ∉ rest := (List.nodup_cons.mp hnd).1
    have hrec := ih (syms ++ [(c, Symbol.new c)]) (poss ++ [(c, Position.new c)]) hnd' ?_
    · simp only [buildMaps, hc, Option.isSome_none, Bool.false_eq_true, if_false]
      rw [hrec]
      simp [List.append_assoc]
    · intro c' hc'
      rw [mget_append]
      have h1 : mget syms c' = none := hnone c' (by simp [hc'])
      rw [h1, mget_singleton]
      have : ¬ (c = c') := fun h => hcnot (h ▸ hc')
      simp [this]

lemma buildMaps_none :
    ∀ (codes : List String) (syms : SMap Symbol) (poss : SMap Position),
      (¬ codes.Nodup ∨ ∃ c ∈ codes, (mget syms c).isSome = true) →
      buildMaps codes syms poss = none := by
  intro codes
  induction codes with
  | nil => intro syms poss h; simp at h
  | cons c rest ih =>
    intro syms poss h
    by_cases hc : (mget syms c).isSome = true
    · simp [buildMaps, hc]
    · have hcn : mget syms c = none := by
        cases hms : mget syms c with
        | none => rfl
        | some v => rw [hms] at hc; simp at hc
      simp only [buildMaps, hc, if_false]
      apply ih
      rcases h with hnd | ⟨c', hc', hsome⟩
      · by_cases hmem : c ∈ rest
        · right
          refine ⟨c, hmem, ?_⟩
          rw [mget_append, hcn, mget_singleton]
          simp
        · left
          intro hndr
          exact hnd (List.nodup_cons.mpr ⟨hmem, hndr⟩)
      · rcases List.mem_cons.mp hc' with rfl | hmem
        · rw [hcn] at hsome; simp at hsome
        · right
          refine ⟨c', hmem, ?_⟩
          rw [mget_append]
          cases hms : mget syms c' with
          | none => rw [hms] at hsome; simp at hsome
          | some v => simp

lemma context_new_none_iff (cash : Dec) (codes : List String) :
    Context.new cash codes = none ↔ ¬ codes.Nodup := by
  constructor
  · intro h hnd
    have := buildMaps_some codes [] [] hnd (by intro c _; rfl)
    simp [Context.new, this] at h
  · intro hnd
    have := buildMaps_none codes [] [] (Or.inl hnd)
    simp [Context.new, this]

lemma context_new_eq (cash : Dec) (codes : List String) (h : codes.Nodup) :
    Context.new cash codes =
      some ⟨cash, codes.map fun c => (c, Symbol.new c),
            codes.map fun c => (c, Position.new c), []⟩ := by
  have := buildMaps_some codes [] [] h (by intro c _; rfl)
  simp [Context.new, this]

/-! ### Claim C10: duplicate codes are rejected by `Context::new` -/

/-- C10: `Context::new` fails exactly on a duplicated contract code; with
pairwise-distinct codes it succeeds and creates one `Symbol` and one
`Position` per code, in order. -/
theorem context_new_dup_spec (cash : Dec) (codes : List String) :
    (Context.new cash codes = none ↔ ¬ codes.Nodup)
    ∧ (codes.Nodup → Context.new cash codes =
        some ⟨cash, codes.map fun c => (c, Symbol.new c),
              codes.map fun c => (c, Position.new c), []⟩) :=
  ⟨context_new_none_iff cash codes, context_new_eq cash codes⟩

/-- Witness for C10 at a concrete two-code input. -/
theorem context_new_dup_spec_witness :
    (["A", "B"] : List String).Nodup
    ∧ Context.new 5 ["A", "B"] =
        some ⟨5, ["A", "B"].map fun c => (c, Symbol.new c),
              ["A", "B"].map fun c => (c, Position.new c), []⟩ :=
  ⟨by decide, (context_new_dup_spec 5 ["A", "B"]).2 (by decide)⟩

/-! ### Claim C5: failure conditions of `Backtest::new` -/

/-- C5 counterexample: a duplicated code makes `Backtest::new` fail although
none of the five conditions listed by the claim holds (the window is valid,
the list is nonempty, cash and slippage are nonnegative, and every minute of
the requested range has a bar). -/
theorem backtest_new_reject_dup_counterexample :
    Backtest.new ["A", "A"] 0 0 0 0 0 [("A", [0])] = none
    ∧ ¬ ((0 : Int) < 0)
    ∧ (["A", "A"] ≠ ([] : List String))
    ∧ ¬ ((0 : Dec) < 0)
    ∧ (∀ c ∈ (["A", "A"] : List String), barsLoadOk [("A", [0])] c 0 0 0 = true) := by
  decide

/-- Closed form of `Backtest::new` as a single conditional. -/
lemma backtest_new_eq (codes : List String) (startT endT : Int) (cash slip : Dec)
    (hist : Nat) (data : SMap (List Int)) :
    Backtest.new codes startT endT cash slip hist data =
      if endT < startT ∨ codes = [] ∨ cash < 0 ∨ slip < 0 ∨ ¬ codes.Nodup
          ∨ ∃ c ∈ codes, barsLoadOk data c startT endT hist = false
      then none
      else some ⟨⟨cash, codes.map fun c => (c, Symbol.new c),
                  codes.map fun c => (c, Position.new c), []⟩,
                 hist, hist, startT, endT, startT⟩ := by
  by_cases h1 : endT < startT
  · simp [Backtest.new, h1]
  by_cases h2 : codes = []
  · subst h2; simp [Backtest.new, h1]
  by_cases h3 : cash < 0
  · simp [Backtest.new, List.isEmpty_iff, h1, h2, h3]
  by_cases h4 : slip < 0
  · simp [Backtest.new, List.isEmpty_iff, h1, h2, h3, h4]
  by_cases h5 : codes.Nodup
  · have hctx := context_new_eq cash codes h5
    by_cases h6 : ∀ c ∈ codes, barsLoadOk data c startT endT hist = true
    · have hall : codes.all (fun c => barsLoadOk data c startT endT hist) = true :=
        List.all_eq_true.mpr h6
      have hex : ¬ ∃ c ∈ codes, barsLoadOk data c startT endT hist = false := by
        rintro ⟨c, hc, hf⟩
        rw [h6 c hc] at hf
        cases hf
      simp [Backtest.new, List.isEmpty_iff, h1, h2, h3, h4, h5, hctx, hall, hex]
    · have hex : ∃ c ∈ codes, barsLoadOk data c startT endT hist = false := by
        push_neg at h6
        rcases h6 with ⟨c, hc, hf⟩
        exact ⟨c, hc, by simpa using hf⟩
      have hallne : codes.all (fun c => barsLoadOk data c startT endT hist) ≠ true := by
        intro hA
        rw [List.all_eq_true] at hA
        exact h6 hA
      have hall : codes.all (fun c => barsLoadOk data c startT endT hist) = false := by
        cases hB : codes.all (fun c => barsLoadOk data c startT endT hist) with
        | false => rfl
        | true => exact absurd hB hallne
      simp [Backtest.new, List.isEmpty_iff, h1, h2, h3, h4, hctx, hall, hex]
  · have hctx := (context_new_none_iff cash codes).mpr h5
    simp [Backtest.new, List.isEmpty_iff, h1, h2, h3, h4, h5, hctx]

/-- C5 (amended): `Backtest::new` fails exactly when `end < start`, the codes
list is empty, cash is negative, slippage is negative, the codes list
contains a duplicate, or bars are missing for some minute of
`[start − H·minute, end]`; otherwise it succeeds with `bar_idx = H` and
`curr_time = start`. -/
theorem backtest_new_spec (codes : List String) (startT endT : Int) (cash slip : Dec)
    (hist : Nat) (data : SMap (List Int)) :
    (Backtest.new codes startT endT cash slip hist data = none ↔
      endT < startT ∨ codes = [] ∨ cash < 0 ∨ slip < 0 ∨ ¬ codes.Nodup
        ∨ ∃ c ∈ codes, barsLoadOk data c startT endT hist = false)
    ∧ (¬ (endT < startT ∨ codes = [] ∨ cash < 0 ∨ slip < 0 ∨ ¬ codes.Nodup
          ∨ ∃ c ∈ codes, barsLoadOk data c startT endT hist = false) →
        Backtest.new codes startT endT cash slip hist data =
          some ⟨⟨cash, codes.map fun c => (c, Symbol.new c),
                 codes.map fun c => (c, Position.new c), []⟩,
                hist, hist, startT, endT, startT⟩) := by
  have hkey := backtest_new_eq codes startT endT cash slip hist data
  constructor
  · rw [hkey]
    by_cases hc : endT < startT ∨ codes = [] ∨ cash < 0 ∨ slip < 0 ∨ ¬ codes.Nodup
        ∨ ∃ c ∈ codes, barsLoadOk data c startT endT hist = false
    · simp [hc]
    · simp [hc]
  · intro hn
    rw [hkey, if_neg hn]

/-- Witness for C5 at a concrete succeeding input. -/
theorem backtest_new_spec_witness :
    ¬ ((1 : Int) < 0 ∨ (["A"] : List String) = [] ∨ (100 : Dec) < 0 ∨ (0 : Dec) < 0
        ∨ ¬ (["A"] : List String).Nodup
        ∨ ∃ c ∈ (["A"] : List String), barsLoadOk [("A", [0, 1])] c 0 1 0 = false)
    ∧ Backtest.new ["A"] 0 1 100 0 0 [("A", [0, 1])] =
        some ⟨⟨100, ["A"].map fun c => (c, Symbol.new c),
               ["A"].map fun c => (c, Position.new c), []⟩, 0, 0, 0, 1, 0⟩ :=
  ⟨by decide, (backtest_new_spec ["A"] 0 1 100 0 0 [("A", [0, 1])]).2 (by decide)⟩

/-! ### Claim C4: equity = cash + unrealized P&L -/

/-- C4: for every context state (hence after every engine step),
`calc_equity` equals `cash` plus the sum over all positions of
`(mark − long.price)·long.size + (short.price − mark)·short.size`,
exactly, in the Decimal model. -/
theorem equity_eq_cash_plus_upl (ctx : Context) :
    ctx.calcEquity = ctx.cash + (ctx.positions.map fun cp =>
      ((ctx.symbolOf cp.1).markPrice - cp.2.long.price) * cp.2.long.size
        + (cp.2.short.price - (ctx.symbolOf cp.1).markPrice) * cp.2.short.size).sum := rfl

/-! ### Claim C6: the gas meter -/

/-- C6 counterexample: with `gas_max = 0` a progress tick does not increment
the gas counter (metering is disabled), and 100 ticks run without aborting;
the claim as stated requires every tick to increment the counter. -/
theorem gas_tick_counterexample :
    onProgress 0 0 = GasStep.cont 0 ∧ GasStep.cont 0 ≠ GasStep.cont 1
    ∧ runTicks 0 100 0 = GasStep.cont 0 := by
  decide

lemma runTicks_cont_bound (gasMax : Nat) (hg : 0 < gasMax) :
    ∀ (n u0 u : Nat), runTicks gasMax n u0 = GasStep.cont u →
      u = u0 + n ∧ (0 < n → u ≤ gasMax + 1) := by
  intro n
  induction n with
  | zero =>
    intro u0 u h
    simp only [runTicks, GasStep.cont.injEq] at h
    omega
  | succ n ih =>
    intro u0 u h
    have hgz : ¬ (gasMax = 0) := by omega
    simp only [runTicks, onProgress, hgz, if_false] at h
    by_cases hlt : gasMax < u0
    · rw [if_pos hlt] at h
      simp at h
    · rw [if_neg hlt] at h
      have hrec : runTicks gasMax n (u0 + 1) = GasStep.cont u := h
      obtain ⟨h1, h2⟩ := ih (u0 + 1) u hrec
      refine ⟨by omega, fun _ => ?_⟩
      rcases Nat.eq_zero_or_pos n with hn | hn
      · subst hn; omega
      · exact h2 hn

/-- C6 (amended): when `gas_max > 0`, a progress tick whose counter is still
`≤ gas_max` increments the counter, and a tick whose counter already exceeds
`gas_max` aborts with the message `gas usage exceeds the limit: {gas_max}`;
consequently at most `gas_max + 1` ticks can complete without an abort.  When
`gas_max = 0`, metering is disabled (ticks neither increment nor abort). -/
theorem gas_meter_spec (gasMax usage n : Nat) (h : 0 < gasMax) :
    (usage ≤ gasMax → onProgress gasMax usage = GasStep.cont (usage + 1))
    ∧ (gasMax < usage → onProgress gasMax usage = GasStep.abort (gasMsg gasMax))
    ∧ (∀ u, runTicks gasMax n 0 = GasStep.cont u → u = n ∧ n ≤ gasMax + 1) := by
  refine ⟨?_, ?_, ?_⟩
  · intro hle
    have hgz : ¬ (gasMax = 0) := by omega
    have hnlt : ¬ (gasMax < usage) := by omega
    simp [onProgress, hgz, hnlt]
  · intro hlt
    have hgz : ¬ (gasMax = 0) := by omega
    simp [onProgress, hgz, hlt]
  · intro u hu
    obtain ⟨h1, h2⟩ := runTicks_cont_bound gasMax h n 0 u hu
    refine ⟨by omega, ?_⟩
    rcases Nat.eq_zero_or_pos n with hn | hn
    · omega
    · have := h2 hn; omega

/-- Witness for C6 at concrete inputs. -/
theorem gas_meter_spec_witness :
    0 < 2 ∧ (1 ≤ 2 → onProgress 2 1 = GasStep.cont 2) :=
  ⟨by decide, (gas_meter_spec 2 1 3 (by decide)).1⟩

/-! ### Claim C7: the KV cursor after a chat turn -/

/-- C7: at the failing input (3 prompt tokens, 2 thinking tokens, 2
post-think answer tokens, 2 `<|im_end|>` tokens) the turn ends with
`n_cur = 5` — the elision resets the cursor to the end of the prompt,
discarding the post-think answer tokens from the KV cache as well — while
the claim requires `n_cur = 7` (prompt + post-think output + im_end); the
final KV cache holds only the prompt and the `<|im_end|>` tokens. -/
theorem chat_turn_kv_bug :
    (chatTurn true 0 [] [10, 11, 12] [20, 21] [30, 31] [40, 41]).2 = 5
    ∧ specCursorAfterTurn 0 [10, 11, 12] [30, 31] [40, 41] = 7
    ∧ (chatTurn true 0 [] [10, 11, 12] [20, 21] [30, 31] [40, 41]).1
        = [(0, 10), (1, 11), (2, 12), (3, 40), (4, 41)] := by
  decide

/-! ### Claim C1: the `place_order` preconditions -/

lemma placeOrderChecks_err_iff (ctx : Context) (currTime : Int) (code : String)
    (type_ : OrderType) (direction : Direction) (side : Side) (size : Dec)
    (price : Option Dec) (orderId : String) (symbol : Symbol) (pos : Position)
    (hpos : mget ctx.positions code = some pos) :
    (∃ e, placeOrderChecks ctx currTime code type_ direction side size price orderId symbol
        = .error e) ↔
      ¬ (0 < actualOrderPrice symbol type_ price)
      ∨ size < symbol.minSize
      ∨ actualOrderPrice symbol type_ price * size < symbol.minCash
      ∨ (isOpenPair direction side = true
          ∧ ctx.calcAvailCash < actualOrderPrice symbol type_ price * size / pos.lever)
      ∨ (isOpenPair direction side = false
          ∧ ctx.calcPosAvailSize code direction < size) := by
  have hp2 : ctx.posOf code = pos := by simp [Context.posOf, hpos]
  simp only [placeOrderChecks, hp2]
  split_ifs with h1 h2 h3 h4 h5 h6
  · simp [h1, h4, not_lt.mpr h2, not_lt.mpr h3, not_lt.mpr h5]
  · simp [h4, not_le.mp h5]
  · have h4' : isOpenPair direction side = false := by
      cases hv : isOpenPair direction side
      · rfl
      · exact absurd hv h4
    simp [h1, h4', not_lt.mpr h2, not_lt.mpr h3, not_lt.mpr h6]
  · have h4' : isOpenPair direction side = false := by
      cases hv : isOpenPair direction side
      · rfl
      · exact absurd hv h4
    simp [h4', not_le.mp h6]
  · simp [not_le.mp h3]
  · simp [not_le.mp h2]
  · simp [h1]

lemma placeOrderChecks_ok (ctx : Context) (currTime : Int) (code : String)
    (type_ : OrderType) (direction : Direction) (side : Side) (size : Dec)
    (price : Option Dec) (orderId : String) (symbol : Symbol) (pos : Position)
    (hpos : mget ctx.positions code = some pos)
    (h : ¬ (¬ (0 < actualOrderPrice symbol type_ price)
      ∨ size < symbol.minSize
      ∨ actualOrderPrice symbol type_ price * size < symbol.minCash
      ∨ (isOpenPair direction side = true
          ∧ ctx.calcAvailCash < actualOrderPrice symbol type_ price * size / pos.lever)
      ∨ (isOpenPair direction side = false
          ∧ ctx.calcPosAvailSize code direction < size))) :
    placeOrderChecks ctx currTime code type_ direction side size price orderId symbol
      = .ok ({ ctx with orders := minsert ctx.orders orderId (newOrder code type_ direction side size price orderId currTime) }, orderId) := by
  have hp2 : ctx.posOf code = pos := by simp [Context.posOf, hpos]
  push_neg at h
  obtain ⟨hap, hms, hmc, hopen, hclose⟩ := h
  simp only [placeOrderChecks, hp2]
  split_ifs with h1 h2 h3
  · rfl
  · exact absurd (hopen h1) h2
  · rfl
  · have h1' : isOpenPair direction side = false := by
      cases hv : isOpenPair direction side
      · rfl
      · exact absurd hv h1
    exact absurd (hclose h1') h3

lemma mismatch_iff (type_ : OrderType) (price : Option Dec) :
    (typePriceMismatch type_ price = true) ↔
      (type_ = OrderType.Limit ∧ price = none)
      ∨ (type_ = OrderType.Market ∧ price ≠ none) := by
  cases type_ <;> cases price <;> simp [typePriceMismatch]

lemma nonpos_price_subsumed (symbol : Symbol) (ap size : Dec)
    (hms : 0 < symbol.minSize) (hmc : 0 < symbol.minCash) (h : ¬ (0 < ap)) :
    size < symbol.minSize ∨ ap * size < symbol.minCash := by
  by_cases hs : size < symbol.minSize
  · exact Or.inl hs
  · right
    have h0 : 0 < size := lt_of_lt_of_le hms (not_lt.mp hs)
    have hap : ap ≤ 0 := not_lt.mp h
    have : ap * size ≤ 0 := mul_nonpos_iff.mpr (Or.inr ⟨hap, le_of_lt h0⟩)
    exact lt_of_le_of_lt this hmc

/-- C1: a `place_order` call on the backtest engine (with the order's
contract present and the positive `Symbol::new` minimums) returns an error
iff the opening check fails, the closing check fails, `size < min_size`,
`price·size < min_cash`, the order is Limit with no price, or the order is
Market with a price; otherwise the new order is inserted with status `New`
and its id is returned. -/
theorem place_order_error_iff (ctx : Context) (currTime : Int) (code : String)
    (type_ : OrderType) (direction : Direction) (side : Side) (size : Dec)
    (price : Option Dec) (orderId : String) (symbol : Symbol) (pos : Position)
    (hsym : mget ctx.symbols code = some symbol)
    (hpos : mget ctx.positions code = some pos)
    (hms : 0 < symbol.minSize) (hmc : 0 < symbol.minCash) :
    ((∃ e, placeOrder ctx currTime code type_ direction side size price orderId
        = .error e) ↔
      (type_ = OrderType.Limit ∧ price = none)
      ∨ (type_ = OrderType.Market ∧ price ≠ none)
      ∨ size < symbol.minSize
      ∨ actualOrderPrice symbol type_ price * size < symbol.minCash
      ∨ (isOpenPair direction side = true
          ∧ ctx.calcAvailCash < actualOrderPrice symbol type_ price * size / pos.lever)
      ∨ (isOpenPair direction side = false
          ∧ ctx.calcPosAvailSize code direction < size))
    ∧ (¬ ((type_ = OrderType.Limit ∧ price = none)
        ∨ (type_ = OrderType.Market ∧ price ≠ none)
        ∨ size < symbol.minSize
        ∨ actualOrderPrice symbol type_ price * size < symbol.minCash
        ∨ (isOpenPair direction side = true
            ∧ ctx.calcAvailCash < actualOrderPrice symbol type_ price * size / pos.lever)
        ∨ (isOpenPair direction side = false
            ∧ ctx.calcPosAvailSize code direction < size)) →
      placeOrder ctx currTime code type_ direction side size price orderId
        = .ok ({ ctx with orders := minsert ctx.orders orderId (newOrder code type_ direction side size price orderId currTime) }, orderId)) := by
  have hPO : placeOrder ctx currTime code type_ direction side size price orderId
      = if typePriceMismatch type_ price = true then
          Except.error "order type and price mismatch"
        else placeOrderChecks ctx currTime code type_ direction side size price orderId
          symbol := by
    simp only [placeOrder, hsym]
  by_cases hm : typePriceMismatch type_ price = true
  · rw [hPO, if_pos hm]
    have hmm := (mismatch_iff type_ price).mp hm
    have hcd : (type_ = OrderType.Limit ∧ price = none)
        ∨ (type_ = OrderType.Market ∧ price ≠ none)
        ∨ size < symbol.minSize
        ∨ actualOrderPrice symbol type_ price * size < symbol.minCash
        ∨ (isOpenPair direction side = true
            ∧ ctx.calcAvailCash < actualOrderPrice symbol type_ price * size / pos.lever)
        ∨ (isOpenPair direction side = false
            ∧ ctx.calcPosAvailSize code direction < size) := by
      rcases hmm with h | h
      · exact Or.inl h
      · exact Or.inr (Or.inl h)
    exact ⟨⟨fun _ => hcd, fun _ => ⟨_, rfl⟩⟩, fun hn => absurd hcd hn⟩
  · rw [hPO, if_neg hm]
    have hmm : ¬ ((type_ = OrderType.Limit ∧ price = none)
        ∨ (type_ = OrderType.Market ∧ price ≠ none)) := fun hq =>
      hm ((mismatch_iff type_ price).mpr hq)
    have hkey := placeOrderChecks_err_iff ctx currTime code type_ direction side size
      price orderId symbol pos hpos
    have htoC : (¬ (0 < actualOrderPrice symbol type_ price)
        ∨ size < symbol.minSize
        ∨ actualOrderPrice symbol type_ price * size < symbol.minCash
        ∨ (isOpenPair direction side = true
            ∧ ctx.calcAvailCash < actualOrderPrice symbol type_ price * size / pos.lever)
        ∨ (isOpenPair direction side = false
            ∧ ctx.calcPosAvailSize code direction < size)) →
        ((type_ = OrderType.Limit ∧ price = none)
        ∨ (type_ = OrderType.Market ∧ price ≠ none)
        ∨ size < symbol.minSize
        ∨ actualOrderPrice symbol type_ price * size < symbol.minCash
        ∨ (isOpenPair direction side = true
            ∧ ctx.calcAvailCash < actualOrderPrice symbol type_ price * size / pos.lever)
        ∨ (isOpenPair direction side = false
            ∧ ctx.calcPosAvailSize code direction < size)) := by
      intro hd
      rcases hd with hd | hd | hd | hd | hd
      · rcases nonpos_price_subsumed symbol _ size hms hmc hd with hx | hx
        · exact Or.inr (Or.inr (Or.inl hx))
        · exact Or.inr (Or.inr (Or.inr (Or.inl hx)))
      · exact Or.inr (Or.inr (Or.inl hd))
      · exact Or.inr (Or.inr (Or.inr (Or.inl hd)))
      · exact Or.inr (Or.inr (Or.inr (Or.inr (Or.inl hd))))
      · exact Or.inr (Or.inr (Or.inr (Or.inr (Or.inr hd))))
    have hfromC : ((type_ = OrderType.Limit ∧ price = none)
        ∨ (type_ = OrderType.Market ∧ price ≠ none)
        ∨ size < symbol.minSize
        ∨ actualOrderPrice symbol type_ price * size < symbol.minCash
        ∨ (isOpenPair direction side = true
            ∧ ctx.calcAvailCash < actualOrderPrice symbol type_ price * size / pos.lever)
        ∨ (isOpenPair direction side = false
            ∧ ctx.calcPosAvailSize code direction < size)) →
        (¬ (0 < actualOrderPrice symbol type_ price)
        ∨ size < symbol.minSize
        ∨ actualOrderPrice symbol type_ price * size < symbol.minCash
        ∨ (isOpenPair direction side = true
            ∧ ctx.calcAvailCash < actualOrderPrice symbol type_ price * size / pos.lever)
        ∨ (isOpenPair direction side = false
            ∧ ctx.calcPosAvailSize code direction < size)) := by
      intro hd
      rcases hd with hd | hd | hd | hd | hd | hd
      · exact absurd (Or.inl hd) hmm
      · exact absurd (Or.inr hd) hmm
      · exact Or.inr (Or.inl hd)
      · exact Or.inr (Or.inr (Or.inl hd))
      · exact Or.inr (Or.inr (Or.inr (Or.inl hd)))
      · exact Or.inr (Or.inr (Or.inr (Or.inr hd)))
    constructor
    · rw [hkey]
      exact ⟨htoC, hfromC⟩
    · intro hn
      exact placeOrderChecks_ok ctx currTime code type_ direction side size price
        orderId symbol pos hpos (fun hd => hn (htoC hd))

/-- Concrete one-contract context for the C1 witness. -/
def symW : Symbol := { Symbol.new "BTC" with price := 100, markPrice := 100 }

/-- Concrete context (cash 1000, one contract, no orders) for the C1 witness. -/
def ctxW : Context :=
  ⟨1000, [("BTC", symW)], [("BTC", Position.new "BTC")], []⟩

lemma symW_minSize_pos : 0 < symW.minSize := by
  norm_num [symW, Symbol.new]

lemma symW_minCash_pos : 0 < symW.minCash := by
  norm_num [symW, Symbol.new]

lemma ctxW_no_reject :
    ¬ ((OrderType.Market = OrderType.Limit ∧ (none : Option Dec) = none)
      ∨ (OrderType.Market = OrderType.Market ∧ (none : Option Dec) ≠ none)
      ∨ (1 : Dec) < symW.minSize
      ∨ actualOrderPrice symW OrderType.Market none * 1 < symW.minCash
      ∨ (isOpenPair Direction.Long Side.Buy = true
          ∧ ctxW.calcAvailCash < actualOrderPrice symW OrderType.Market none * 1
              / (Position.new "BTC").lever)
      ∨ (isOpenPair Direction.Long Side.Buy = false
          ∧ ctxW.calcPosAvailSize "BTC" Direction.Long < 1)) := by
  intro hd
  rcases hd with ⟨h1, _⟩ | ⟨_, h2⟩ | h3 | h4 | ⟨_, h5⟩ | ⟨h6, _⟩
  · exact OrderType.noConfusion h1
  · exact h2 rfl
  · norm_num [symW, Symbol.new] at h3
  · norm_num [symW, Symbol.new, actualOrderPrice] at h4
  · norm_num [ctxW, symW, Symbol.new, Position.new, actualOrderPrice,
      Context.calcAvailCash, Context.calcEquity, Context.calcUpl, Context.calcFrozenCash,
      Context.calcOrderFrozenCash, Context.calcPosFrozenCash, Context.symbolOf,
      Context.posOf, mget, mvalues] at h5
  · exact Bool.noConfusion h6

/-- Witness for C1: a valid market open order on `ctxW` is accepted. -/
theorem place_order_error_iff_witness :
    mget ctxW.symbols "BTC" = some symW
    ∧ mget ctxW.positions "BTC" = some (Position.new "BTC")
    ∧ 0 < symW.minSize
    ∧ 0 < symW.minCash
    ∧ placeOrder ctxW 0 "BTC" OrderType.Market Direction.Long Side.Buy 1 none "oid1"
        = .ok ({ ctxW with orders := minsert ctxW.orders "oid1" (newOrder "BTC" OrderType.Market Direction.Long Side.Buy 1 none "oid1" 0) }, "oid1") :=
  ⟨rfl, rfl, symW_minSize_pos, symW_minCash_pos,
    (place_order_error_iff ctxW 0 "BTC" OrderType.Market Direction.Long Side.Buy 1 none
      "oid1" symW (Position.new "BTC") rfl rfl symW_minSize_pos symW_minCash_pos).2
      ctxW_no_reject⟩

/-! ### Claim C2: the crossing rules of `cross_order` -/

/-- C2: against a bar's `(open, high, low)`, a market order always fills at
`open·(1 ± slippage)` by side; a limit buy fills at `open` when
`limit ≥ open`, else at `limit` when `limit ≥ low`, else not at all; a limit
sell fills at `open` when `limit ≤ open`, else at `limit` when
`limit ≤ high`, else not at all. -/
theorem cross_order_fill_rule (slip o h l lp : Dec) (ord : Order)
    (hp : ord.type_ = OrderType.Limit → ord.price = some lp) :
    (ord.type_ = OrderType.Market →
      crossFill slip o h l ord =
        (true, if ord.side = Side.Buy then o * (1 + slip) else o * (1 - slip)))
    ∧ (ord.type_ = OrderType.Limit →
      crossFill slip o h l ord =
        (if ord.side = Side.Buy then
          (if lp ≥ o then (true, o) else if lp ≥ l then (true, lp) else (false, 0))
        else
          (if lp ≤ o then (true, o) else if lp ≤ h then (true, lp) else (false, 0)))) := by
  constructor
  · intro hm
    cases hs : ord.side
    · simp [crossFill, hm, hs]
    · simp [crossFill, hm, hs]
  · intro hl
    have hpr := hp hl
    cases hs : ord.side
    · simp [crossFill, hl, hs, hpr]
    · simp [crossFill, hl, hs, hpr]

/-- Concrete price-improved limit buy for the C2 witness. -/
def sampleLimitBuy : Order :=
  ⟨"o1", "BTC", OrderType.Limit, Direction.Long, Side.Buy, some 108, 1, 0,
    OrderStatus.New, 0⟩

/-- Witness for C2: a limit buy at 108 against open 105 fills at 105. -/
theorem cross_order_fill_rule_witness :
    (sampleLimitBuy.type_ = OrderType.Limit → sampleLimitBuy.price = some 108)
    ∧ crossFill 0 105 110 95 sampleLimitBuy = (true, 105) :=
  ⟨fun _ => rfl, by
    have h := (cross_order_fill_rule 0 105 110 95 108 sampleLimitBuy (fun _ => rfl)).2 rfl
    rw [h]
    decide⟩

/-! ### Claim C3: fill accounting of `cross_order` -/

/-- C3: on a fill, the fee is `fill_price·size·fee_rate` with the maker rate
exactly when the order was `Pending` at the start of the tick; an opening
fill adds `size` to the direction bucket, moves the bucket price to the
volume-weighted average entry, and subtracts the fee from cash; a closing
fill subtracts `size` from the bucket and adds `rpl` to cash with
`rpl = (fill − entry)·size − fee` for long and `(entry − fill)·size − fee`
for short; the appended trade carries this fee and rpl. -/
theorem cross_order_fill_accounting (maker taker : Dec) (t : Int) (cash0 : Dec)
    (pos : Position) (oid : String) (ord : Order) (fp : Dec)
    (hsz : 0 < ord.size)
    (hbkt : 0 ≤ (match ord.direction with
      | Direction.Long => pos.long
      | Direction.Short => pos.short).size) :
    (applyFill maker taker t cash0 pos oid ord fp).fee
        = fp * ord.size * (if ord.status = OrderStatus.Pending then maker else taker)
    ∧ (isOpenPair ord.direction ord.side = true →
        (match ord.direction with
          | Direction.Long => (applyFill maker taker t cash0 pos oid ord fp).pos.long
          | Direction.Short => (applyFill maker taker t cash0 pos oid ord fp).pos.short).size
          = (match ord.direction with
              | Direction.Long => pos.long
              | Direction.Short => pos.short).size + ord.size
        ∧ (match ord.direction with
            | Direction.Long => (applyFill maker taker t cash0 pos oid ord fp).pos.long
            | Direction.Short => (applyFill maker taker t cash0 pos oid ord fp).pos.short).price
          = ((match ord.direction with
              | Direction.Long => pos.long
              | Direction.Short => pos.short).price
                * (match ord.direction with
                    | Direction.Long => pos.long
                    | Direction.Short => pos.short).size
              + fp * ord.size)
            / ((match ord.direction with
                | Direction.Long => pos.long
                | Direction.Short => pos.short).size + ord.size)
        ∧ (applyFill maker taker t cash0 pos oid ord fp).cash
          = cash0 - (applyFill maker taker t cash0 pos oid ord fp).fee)
    ∧ (isOpenPair ord.direction ord.side = false →
        (match ord.direction with
          | Direction.Long => (applyFill maker taker t cash0 pos oid ord fp).pos.long
          | Direction.Short => (applyFill maker taker t cash0 pos oid ord fp).pos.short).size
          = (match ord.direction with
              | Direction.Long => pos.long
              | Direction.Short => pos.short).size - ord.size
        ∧ (applyFill maker taker t cash0 pos oid ord fp).cash
          = cash0 + (applyFill maker taker t cash0 pos oid ord fp).rpl
        ∧ (applyFill maker taker t cash0 pos oid ord fp).rpl
          = (match ord.direction with
              | Direction.Long => (fp - pos.long.price) * ord.size
                  - (applyFill maker taker t cash0 pos oid ord fp).fee
              | Direction.Short => (pos.short.price - fp) * ord.size
                  - (applyFill maker taker t cash0 pos oid ord fp).fee))
    ∧ (applyFill maker taker t cash0 pos oid ord fp).trade
      = ⟨oid, t, ord.code, ord.direction, ord.side, fp, ord.size,
          (applyFill maker taker t cash0 pos oid ord fp).fee,
          (applyFill maker taker t cash0 pos oid ord fp).rpl⟩ := by
  obtain ⟨oidF, ocode, oty, odir, oside, oprice, osize, ofilled, ostatus, otime⟩ := ord
  cases odir <;> cases oside
  · -- Long Buy: opening
    refine ⟨rfl, fun _ => ⟨rfl, ?_, rfl⟩, fun hob => Bool.noConfusion hob, rfl⟩
    have hb : (0 : Dec) ≤ pos.long.size := hbkt
    by_cases hz : 0 < pos.long.size
    · simp [applyFill, isOpenPair, hz]
    · have hz0 : pos.long.size = 0 := le_antisymm (not_lt.mp hz) hb
      have hs0 : (osize : Dec) ≠ 0 := ne_of_gt hsz
      simp [applyFill, isOpenPair, hz, hz0]
      field_simp
  · -- Long Sell: closing
    exact ⟨rfl, fun hob => Bool.noConfusion hob, fun _ => ⟨rfl, rfl, rfl⟩, rfl⟩
  · -- Short Buy: closing
    exact ⟨rfl, fun hob => Bool.noConfusion hob, fun _ => ⟨rfl, rfl, rfl⟩, rfl⟩
  · -- Short Sell: opening
    refine ⟨rfl, fun _ => ⟨rfl, ?_, rfl⟩, fun hob => Bool.noConfusion hob, rfl⟩
    have hb : (0 : Dec) ≤ pos.short.size := hbkt
    by_cases hz : 0 < pos.short.size
    · simp [applyFill, isOpenPair, hz]
    · have hz0 : pos.short.size = 0 := le_antisymm (not_lt.mp hz) hb
      have hs0 : (osize : Dec) ≠ 0 := ne_of_gt hsz
      simp [applyFill, isOpenPair, hz, hz0]
      field_simp

/-! ### String and JSON models for the tool-call layer

`src/fuxi-quant-agent/src/tool.rs` manipulates UTF-8 strings by byte index;
the patterns involved are ASCII, so strings are modelled as `List Char`
(byte index = character index on the inputs of interest).  JSON values
(`serde_json::Value`) are modelled by the mutual inductives below; a number
is kept as its lexeme, which is all the parser ever does with one here. -/

/-- Rust string model. -/
abbrev RStr := List Char

/-- Model of `str::find` for a pattern: first index at which `pat` occurs. -/
def subFind (s pat : RStr) : Option Nat :=
  (List.range (s.length + 1)).find? fun i => pat.isPrefixOf (s.drop i)

/-- Model of `str::rfind` for a pattern: last index at which `pat` occurs. -/
def subFindLast (s pat : RStr) : Option Nat :=
  ((List.range (s.length + 1)).filter fun i => pat.isPrefixOf (s.drop i)).getLast?

/-- Model of `str::trim` (ASCII whitespace). -/
def trimStr (s : RStr) : RStr :=
  ((s.dropWhile Char.isWhitespace).reverse.dropWhile Char.isWhitespace).reverse

/-- The byte-range slice `s[a..b]`. -/
def strSlice (s : RStr) (a b : Nat) : RStr := (s.take b).drop a

mutual
/-- Model of `serde_json::Value`. -/
inductive Json where
  | null
  | bool (b : Bool)
  | num (lit : RStr)
  | str (s : RStr)
  | arr (items : JsonList)
  | obj (fields : JsonFields)

/-- The elements of a JSON array. -/
inductive JsonList where
  | nil
  | cons (hd : Json) (tl : JsonList)

/-- The key/value fields of a JSON object, in order. -/
inductive JsonFields where
  | nil
  | cons (key : RStr) (val : Json) (tl : JsonFields)
end

/-- A hexadecimal digit for `\u00XX` escapes. -/
def hexDigit (n : Nat) : Char :=
  if n < 10 then Char.ofNat ('0'.toNat + n) else Char.ofNat ('a'.toNat + n - 10)

/-- Model of `serde_json` string escaping: quote, backslash, the short control escapes
and `\u00XX` for other control characters. -/
def escChar (c : Char) : RStr :=
  if c = '"' then ['\\', '"']
  else if c = '\\' then ['\\', '\\']
  else if c = '\x08' then ['\\', 'b']
  else if c = '\x0c' then ['\\', 'f']
  else if c = '\n' then ['\\', 'n']
  else if c = '\r' then ['\\', 'r']
  else if c = '\t' then ['\\', 't']
  else if c.toNat < 32 then
    '\\' :: 'u' :: '0' :: '0' :: [hexDigit (c.toNat / 16), hexDigit (c.toNat % 16)]
  else [c]

/-- Escape a whole string body. -/
def escapeJson (s : RStr) : RStr := s.flatMap escChar

/-- Two spaces of indentation per level (`serde_json::to_string_pretty`). -/
def indentStr (n : Nat) : RStr := List.replicate (2 * n) ' '

mutual
/-- Model of `serde_json::to_string_pretty` at an indentation level. -/
def prettyJson (ind : Nat) : Json → RStr
  | Json.null => "null".toList
  | Json.bool b => if b then "true".toList else "false".toList
  | Json.num lit => lit
  | Json.str s => '"' :: (escapeJson s ++ ['"'])
  | Json.arr items =>
    match items with
    | JsonList.nil => "[]".toList
    | JsonList.cons _ _ =>
      '[' :: '\n' :: (prettyItems (ind + 1) items ++ '\n' :: (indentStr ind ++ [']']))
  | Json.obj fields =>
    match fields with
    | JsonFields.nil => ['\x7b', '\x7d']
    | JsonFields.cons _ _ _ =>
      '\x7b' :: '\n' :: (prettyFields (ind + 1) fields ++ '\n' :: (indentStr ind ++ ['\x7d']))

/-- Array elements, one per line, comma-separated. -/
def prettyItems (ind : Nat) : JsonList → RStr
  | JsonList.nil => []
  | JsonList.cons x JsonList.nil => indentStr ind ++ prettyJson ind x
  | JsonList.cons x tl =>
    indentStr ind ++ prettyJson ind x ++ ',' :: '\n' :: prettyItems ind tl

/-- Object fields, one per line, comma-separated, `"key": value`. -/
def prettyFields (ind : Nat) : JsonFields → RStr
  | JsonFields.nil => []
  | JsonFields.cons k v JsonFields.nil =>
    indentStr ind ++ '"' :: (escapeJson k ++ ['"', ':', ' ']) ++ prettyJson ind v
  | JsonFields.cons k v tl =>
    indentStr ind ++ '"' :: (escapeJson k ++ ['"', ':', ' ']) ++ prettyJson ind v
      ++ ',' :: '\n' :: prettyFields ind tl
end

/-- JSON whitespace (`serde_json`): space, tab, newline, carriage return. -/
def jsonWs (c : Char) : Bool :=
  (c == ' ') || (c == '\t') || (c == '\n') || (c == '\r')

/-- Consume an exact literal. -/
def expectLit (s lit : RStr) : Option RStr :=
  if lit.isPrefixOf s then some (s.drop lit.length) else none

/-- The value of a hexadecimal digit. -/
def hexVal (c : Char) : Option Nat :=
  if '0' ≤ c ∧ c ≤ '9' then some (c.toNat - '0'.toNat)
  else if 'a' ≤ c ∧ c ≤ 'f' then some (c.toNat - 'a'.toNat + 10)
  else if 'A' ≤ c ∧ c ≤ 'F' then some (c.toNat - 'A'.toNat + 10)
  else none

/-- JSON string body after the opening quote: contents and remainder after
the closing quote (`\uXXXX` decoded as a single code unit; surrogate pairing
is out of scope for the model). -/
def parseStringBody : Nat → RStr → Option (RStr × RStr)
  | 0, _ => none
  | _ + 1, [] => none
  | _ + 1, '"' :: rest => some ([], rest)
  | fuel + 1, '\\' :: rest =>
    ((match rest with
      | [] => none
      | esc :: rest' =>
        if esc = '"' then some (['"'], rest')
        else if esc = '\\' then some (['\\'], rest')
        else if esc = '/' then some (['/'], rest')
        else if esc = 'b' then some (['\x08'], rest')
        else if esc = 'f' then some (['\x0c'], rest')
        else if esc = 'n' then some (['\n'], rest')
        else if esc = 'r' then some (['\r'], rest')
        else if esc = 't' then some (['\t'], rest')
        else if esc = 'u' then
          match rest' with
          | h1 :: h2 :: h3 :: h4 :: rest'' =>
            match hexVal h1, hexVal h2, hexVal h3, hexVal h4 with
            | some a, some b, some c, some d =>
              some ([Char.ofNat (((a * 16 + b) * 16 + c) * 16 + d)], rest'')
            | _, _, _, _ => none
          | _ => none
        else none : Option (RStr × RStr))).bind fun p =>
      (parseStringBody fuel p.2).map fun q => (p.1 ++ q.1, q.2)
  | fuel + 1, c :: rest =>
    if c.toNat < 32 then none
    else (parseStringBody fuel rest).map fun q => (c :: q.1, q.2)

/-- Exponent part of a JSON number lexeme (or nothing). -/
def parseExpPart (acc : RStr) (s : RStr) : Option (RStr × RStr) :=
  match s with
  | c :: r =>
    if c = 'e' ∨ c = 'E' then
      let signedR := match r with
        | '+' :: rr => (['+'], rr)
        | '-' :: rr => (['-'], rr)
        | _ => (([] : RStr), r)
      let ds := signedR.2.takeWhile Char.isDigit
      if ds.isEmpty then none
      else some (acc ++ c :: (signedR.1 ++ ds), signedR.2.dropWhile Char.isDigit)
    else some (acc, s)
  | [] => some (acc, s)

/-- Fraction part of a JSON number lexeme (or nothing), then exponent. -/
def parseFracPart (acc : RStr) (s : RStr) : Option (RStr × RStr) :=
  match s with
  | '.' :: r =>
    let ds := r.takeWhile Char.isDigit
    if ds.isEmpty then none
    else parseExpPart (acc ++ '.' :: ds) (r.dropWhile Char.isDigit)
  | _ => parseExpPart acc s

/-- A JSON number lexeme: `-? (0 | [1-9][0-9]*) frac? exp?`. -/
def parseNum (s0 : RStr) : Option (RStr × RStr) :=
  let negR := match s0 with
    | '-' :: r => (['-'], r)
    | _ => (([] : RStr), s0)
  match negR.2 with
  | [] => none
  | c :: r1 =>
    if c = '0' then
      match r1 with
      | d :: _ =>
        if d.isDigit then none else parseFracPart (negR.1 ++ ['0']) r1
      | [] => parseFracPart (negR.1 ++ ['0']) r1
    else if c.isDigit then
      parseFracPart (negR.1 ++ negR.2.takeWhile Char.isDigit)
        (negR.2.dropWhile Char.isDigit)
    else none

mutual
/-- One JSON value with leading whitespace, returning the remainder.  The
fuel only bounds recursion depth; `length + 1` is always enough because
every nesting level consumes input. -/
def parseVal : Nat → RStr → Option (Json × RStr)
  | 0, _ => none
  | fuel + 1, s =>
    let s1 := s.dropWhile jsonWs
    match s1 with
    | [] => none
    | c :: rest =>
      if c = 'n' then
        (expectLit s1 ("null".toList)).map fun r => (Json.null, r)
      else if c = 't' then
        (expectLit s1 ("true".toList)).map fun r => (Json.bool true, r)
      else if c = 'f' then
        (expectLit s1 ("false".toList)).map fun r => (Json.bool false, r)
      else if c = '"' then
        (parseStringBody (rest.length + 1) rest).map fun p => (Json.str p.1, p.2)
      else if c = '[' then
        match rest.dropWhile jsonWs with
        | ']' :: r1 => some (Json.arr JsonList.nil, r1)
        | _ =>
          (parseArrItems fuel rest).map fun p => (Json.arr p.1, p.2)
      else if c = '\x7b' then
        match rest.dropWhile jsonWs with
        | '\x7d' :: r1 => some (Json.obj JsonFields.nil, r1)
        | _ =>
          (parseObjFields fuel rest).map fun p => (Json.obj p.1, p.2)
      else
        (parseNum s1).map fun p => (Json.num p.1, p.2)

/-- Comma-separated array elements up to the closing bracket. -/
def parseArrItems : Nat → RStr → Option (JsonList × RStr)
  | 0, _ => none
  | fuel + 1, s =>
    (parseVal fuel s).bind fun p =>
      match p.2.dropWhile jsonWs with
      | ',' :: r2 =>
        (parseArrItems fuel r2).map fun q => (JsonList.cons p.1 q.1, q.2)
      | ']' :: r2 => some (JsonList.cons p.1 JsonList.nil, r2)
      | _ => none

/-- Comma-separated `"key": value` fields up to the closing brace. -/
def parseObjFields : Nat → RStr → Option (JsonFields × RStr)
  | 0, _ => none
  | fuel + 1, s =>
    match s.dropWhile jsonWs with
    | '"' :: r =>
      (parseStringBody (r.length + 1) r).bind fun kp =>
        match kp.2.dropWhile jsonWs with
        | ':' :: r3 =>
          (parseVal fuel r3).bind fun vp =>
            match vp.2.dropWhile jsonWs with
            | ',' :: r6 =>
              (parseObjFields fuel r6).map fun q =>
                (JsonFields.cons kp.1 vp.1 q.1, q.2)
            | '\x7d' :: r6 => some (JsonFields.cons kp.1 vp.1 JsonFields.nil, r6)
            | _ => none
        | _ => none
    | _ => none
end

/-- Model of `serde_json::from_str`: a single JSON value with only whitespace around
it. -/
def jsonParse (s : RStr) : Option Json :=
  match parseVal (s.length + 1) s with
  | none => none
  | some (v, r) => if r.dropWhile jsonWs = [] then some v else none

/-- Model of `src/fuxi-quant-agent/src/tool.rs`: `ToolCall`. -/
structure ToolCall where
  name : RStr
  arguments : Json

/-- Model of `src/fuxi-quant-agent/src/tool.rs`: `ToolResult`. -/
structure ToolResult where
  name : RStr
  content : Json

/-- The literal `"Action:"`. -/
def actionPat : RStr := "Action:".toList

/-- The literal `"Action Input:"`. -/
def actionInputPat : RStr := "Action Input:".toList

/-- The literal `"\nObservation:"`. -/
def obsPat : RStr := "\nObservation:".toList

/-- The literal `"\nThought:"`. -/
def thoughtPat : RStr := "\nThought:".toList

/-- End of the `Action:` line: the next newline, or the end of the output. -/
def actionLineEndAt (out : RStr) (apos : Nat) : Nat :=
  match subFind (out.drop (apos + actionPat.length)) ['\n'] with
  | some p => apos + actionPat.length + p
  | none => out.length

/-- The trimmed tool name on the `Action:` line starting at `apos`. -/
def actionNameAt (out : RStr) (apos : Nat) : RStr :=
  trimStr (strSlice out (apos + actionPat.length) (actionLineEndAt out apos))

/-- End of the `Action Input:` text: the first `"\nObservation:"` after it
if any, else the first `"\nThought:"`, else the end of the output. -/
def inputEndAt (out : RStr) (istart : Nat) : Nat :=
  match subFind (out.drop istart) obsPat with
  | some p => istart + p
  | none =>
    match subFind (out.drop istart) thoughtPat with
    | some p => istart + p
    | none => out.length

/-- The trimmed `Action Input:` text starting at `istart`. -/
def inputTextAt (out : RStr) (istart : Nat) : RStr :=
  trimStr (strSlice out istart (inputEndAt out istart))

/-- The argument value: parse as JSON when the text starts with `{`
(empty object on failure), otherwise wrap as `{"input": text}`. -/
def wrapArgs (inputStr : RStr) : Json :=
  if inputStr.head? = some '\x7b' then (jsonParse inputStr).getD (Json.obj JsonFields.nil)
  else Json.obj (JsonFields.cons ("input".toList) (Json.str inputStr) JsonFields.nil)

/-- Model of `parse_tool_calls` (`tool.rs` lines 180-221): the last `Action:` line
gives the name; the following `Action Input:` text runs to the first
`"\nObservation:"` (else `"\nThought:"`, else the end); the call is kept
when the trimmed name is nonempty. -/
def parseToolCalls (output : RStr) : List ToolCall :=
  match subFindLast output actionPat with
  | none => []
  | some actionPos =>
    let ale := actionLineEndAt output actionPos
    let actionName := actionNameAt output actionPos
    match subFind (output.drop ale) actionInputPat with
    | none => []
    | some inputPos =>
      let istart := ale + inputPos + actionInputPat.length
      let inputStr := inputTextAt output istart
      if actionName.isEmpty then [] else [⟨actionName, wrapArgs inputStr⟩]

/-- Model of `format_tool_response`: `Observation: ` followed by the pretty-printed
content. -/
def formatToolResponse (r : ToolResult) : RStr :=
  "Observation: ".toList ++ prettyJson 0 r.content

/-- Model of `Vec::join` with a separator. -/
def joinWith (sep : RStr) : List RStr → RStr
  | [] => []
  | [x] => x
  | x :: xs => x ++ sep ++ joinWith sep xs

/-- Model of `format_tool_responses`: the responses joined by newlines. -/
def formatToolResponses (rs : List ToolResult) : RStr :=
  joinWith ['\n'] (rs.map formatToolResponse)

/-- Concrete closing order for the C3 witness. -/
def sampleCloseOrder : Order :=
  ⟨"o2", "BTC", OrderType.Market, Direction.Long, Side.Sell, none, 1, 0,
    OrderStatus.Pending, 0⟩

/-- Concrete open position for the C3 witness. -/
def samplePos : Position := ⟨"BTC", 1, ⟨100, 2⟩, ⟨0, 0⟩⟩

/-- Witness for C3: closing 1 long at 110 from entry 100 with maker fee. -/
theorem cross_order_fill_accounting_witness :
    (0 : Dec) < sampleCloseOrder.size
    ∧ (0 : Dec) ≤ samplePos.long.size
    ∧ (applyFill (1/1000) (2/1000) 0 1000 samplePos "o2" sampleCloseOrder 110).fee
        = 110 * sampleCloseOrder.size
            * (if sampleCloseOrder.status = OrderStatus.Pending then (1/1000 : Dec)
               else 2/1000) :=
  ⟨by decide, by decide,
    (cross_order_fill_accounting (1/1000) (2/1000) 0 1000 samplePos "o2"
      sampleCloseOrder 110 (by decide) (by decide)).1⟩

/-! ### Claim C8: formatted responses vs. the parser -/

/-- A tool result whose content embeds `Action:` / `Action Input:` lines. -/
def trickyResult : ToolResult :=
  ⟨"t".toList,
    Json.obj (JsonFields.cons ("a".toList) (Json.str ("Action: foo".toList))
      (JsonFields.cons ("b".toList) (Json.str ("Action Input: x".toList))
        JsonFields.nil))⟩

/-- C8 counterexample: `parse_tool_calls (format_tool_responses results)` is
not empty for a result whose JSON content contains an `Action:` line and an
`Action Input:` line — the pretty-printed observation looks like a call. -/
theorem format_responses_parse_counterexample :
    parseToolCalls (formatToolResponses [trickyResult]) ≠ [] := by
  intro h
  exact Nat.noConfusion (congrArg List.length h)

/-- C8 (amended): a formatted response stream that contains no `Action:`
marker parses to no calls, and `parse_tool_calls` returns the empty list on
every output with no `Action:` marker. -/
theorem parse_empty_no_marker (rs : List ToolResult) (out : RStr)
    (h1 : subFindLast (formatToolResponses rs) actionPat = none)
    (h2 : subFindLast out actionPat = none) :
    parseToolCalls (formatToolResponses rs) = [] ∧ parseToolCalls out = [] := by
  constructor
  · simp only [parseToolCalls, h1]
  · simp only [parseToolCalls, h2]

/-- Witness for C8 at a concrete benign result and output. -/
theorem parse_empty_no_marker_witness :
    subFindLast (formatToolResponses [⟨"t".toList, Json.str ("ok".toList)⟩])
        actionPat = none
    ∧ subFindLast ("hello".toList) actionPat = none
    ∧ parseToolCalls (formatToolResponses [⟨"t".toList, Json.str ("ok".toList)⟩]) = []
    ∧ parseToolCalls ("hello".toList) = [] := by
  have h1 : subFindLast (formatToolResponses [⟨"t".toList, Json.str ("ok".toList)⟩])
      actionPat = none := rfl
  have h2 : subFindLast ("hello".toList) actionPat = none := rfl
  exact ⟨h1, h2, (parse_empty_no_marker _ _ h1 h2).1, (parse_empty_no_marker _ _ h1 h2).2⟩

/-! ### Claim C9: shape of the parsed call -/

/-- Model output whose `Action Input:` text starts with `{` but is not
JSON. -/
def c9out : RStr := "Action: search\nAction Input: ".toList ++ '\x7b' :: "bad".toList

/-- C9 counterexample: on input text `{bad` — which is not JSON-parseable —
the parsed call's arguments are the empty object, not the wrapped
`{"input": "{bad"}` the claim requires. -/
theorem parse_wrap_counterexample :
    parseToolCalls c9out = [⟨"search".toList, Json.obj JsonFields.nil⟩]
    ∧ jsonParse ('\x7b' :: "bad".toList) = none
    ∧ Json.obj JsonFields.nil
        ≠ Json.obj (JsonFields.cons ("input".toList)
            (Json.str ('\x7b' :: "bad".toList)) JsonFields.nil) := by
  refine ⟨rfl, rfl, ?_⟩
  intro h
  injection h with h'
  exact JsonFields.noConfusion h'

/-- C9 (amended): `parse_tool_calls` takes the last `Action:` line (trimmed
to the end of the line) and the following `Action Input:` text, cut at the
first `"\nObservation:"` after it if one occurs, else at the first
`"\nThought:"`, else at the end; the arguments are the parsed JSON when the
trimmed text starts with `{` (the empty object if parsing fails) and the
wrapped `{"input": text}` otherwise; the call is dropped when the trimmed
name is empty. -/
theorem parse_tool_calls_spec (out : RStr) (apos ipos : Nat)
    (h1 : subFindLast out actionPat = some apos)
    (h2 : subFind (out.drop (actionLineEndAt out apos)) actionInputPat = some ipos) :
    parseToolCalls out =
      (if (actionNameAt out apos).isEmpty then []
       else [⟨actionNameAt out apos,
         wrapArgs (inputTextAt out
           (actionLineEndAt out apos + ipos + actionInputPat.length))⟩])
    ∧ (∀ s : RStr, s.head? ≠ some '\x7b' →
        wrapArgs s = Json.obj (JsonFields.cons ("input".toList) (Json.str s)
          JsonFields.nil))
    ∧ (∀ s : RStr, s.head? = some '\x7b' → jsonParse s = none →
        wrapArgs s = Json.obj JsonFields.nil) := by
  refine ⟨?_, ?_, ?_⟩
  · simp only [parseToolCalls, h1, h2]
  · intro s hs
    simp [wrapArgs, hs]
  · intro s hs hp
    simp [wrapArgs, hs, hp]

/-- Concrete model output for the C9 witness. -/
def reactOut : RStr := "Action: search\nAction Input: rust code".toList

/-- Witness for C9: a plain-text action input is wrapped as
`{"input": …}`. -/
theorem parse_tool_calls_spec_witness :
    subFindLast reactOut actionPat = some 0
    ∧ subFind (reactOut.drop (actionLineEndAt reactOut 0)) actionInputPat = some 1
    ∧ parseToolCalls reactOut =
        [⟨"search".toList,
          Json.obj (JsonFields.cons ("input".toList)
            (Json.str ("rust code".toList)) JsonFields.nil)⟩] := by
  have h1 : subFindLast reactOut actionPat = some 0 := rfl
  have h2 : subFind (reactOut.drop (actionLineEndAt reactOut 0)) actionInputPat
      = some 1 := rfl
  refine ⟨h1, h2, ?_⟩
  have h3 := (parse_tool_calls_spec reactOut 0 1 h1 h2).1
  rw [h3]
  rfl

end Fuxi
